import Mathlib

/-!
Verification of the analysis layer of the expense tracker
(`src/expense_tracker.py`, class `ExpenseAnalyzer`).

The analyzer operates on a snapshot of expense records (a `List Record`
in store order).  Currency amounts are modelled as exact rationals,
pandas `.round(2)` as round-half-to-even at two decimal places, pandas
`groupby` (which sorts group keys ascending) as grouping over the
sorted deduplicated key list, pandas `sort_values` / `nlargest` as a
stable sort by the relevant key, and `pd.to_datetime` on the date
column as parsing of ISO `YYYY-MM-DD` strings that fails on the first
malformed entry, the failure carrying the offending date string.
-/

namespace ExpenseTracker

/-- An expense record as stored in the `expenses` table of
`expense_tracker.py` (the `id` is assigned by the store, the `date` is
an ISO `YYYY-MM-DD` string, the `amount` an exact decimal value). -/
structure Record where
  id : Nat
  date : String
  amount : ℚ
  category : String
  description : String
  payment_method : String
deriving DecidableEq, Repr

/-- The `amount` column of a snapshot. -/
def amountsOf (xs : List Record) : List ℚ := xs.map (fun r => r.amount)

/-- Sum of the `amount` column, as in `df['amount'].sum()`. -/
def totalAmount (xs : List Record) : ℚ := (amountsOf xs).sum

/-- Mean of the `amount` column, as in `df['amount'].mean()`. -/
def meanAmount (xs : List Record) : ℚ := totalAmount xs / (xs.length : ℚ)

/-- Round a rational to the nearest integer, halves to even, the tie
rule used by `round` in numpy/pandas. -/
def roundHalfEven (q : ℚ) : ℤ :=
  let f : ℤ := q.num.fdiv (q.den : ℤ)
  if q - (f : ℚ) < 1 / 2 then f
  else if (1 : ℚ) / 2 < q - (f : ℚ) then f + 1
  else if f % 2 = 0 then f else f + 1

/-- Pandas `.round(2)`: round to two decimal places. -/
def round2 (q : ℚ) : ℚ := (roundHalfEven (q * 100) : ℚ) / 100

/-- Maximum of a list (with a default for the empty list), as in
`df['amount'].max()`. -/
def listMax {β : Type} [LinearOrder β] (d : β) : List β → β
  | [] => d
  | a :: t => t.foldl max a

/-- Minimum of a list (with a default for the empty list), as in
`df['amount'].min()`. -/
def listMin {β : Type} [LinearOrder β] (d : β) : List β → β
  | [] => d
  | a :: t => t.foldl min a

theorem le_foldl_max {β : Type} [LinearOrder β] :
    ∀ (t : List β) (a x : β), (x = a ∨ x ∈ t) → x ≤ t.foldl max a := by
  intro t
  induction t with
  | nil =>
    intro a x h
    rcases h with h | h
    · exact h ▸ le_rfl
    · cases h
  | cons b t ih =>
    intro a x h
    simp only [List.foldl_cons]
    rcases h with h | h
    · exact le_trans (h ▸ le_max_left a b) (ih (max a b) _ (Or.inl rfl))
    · rcases List.mem_cons.mp h with h | h
      · exact le_trans (h ▸ le_max_right a b) (ih (max a b) _ (Or.inl rfl))
      · exact ih (max a b) x (Or.inr h)

theorem foldl_min_le {β : Type} [LinearOrder β] :
    ∀ (t : List β) (a x : β), (x = a ∨ x ∈ t) → t.foldl min a ≤ x := by
  intro t
  induction t with
  | nil =>
    intro a x h
    rcases h with h | h
    · exact h ▸ le_rfl
    · cases h
  | cons b t ih =>
    intro a x h
    simp only [List.foldl_cons]
    rcases h with h | h
    · exact le_trans (ih (min a b) _ (Or.inl rfl)) (h ▸ min_le_left a b)
    · rcases List.mem_cons.mp h with h | h
      · exact le_trans (ih (min a b) _ (Or.inl rfl)) (h ▸ min_le_right a b)
      · exact ih (min a b) x (Or.inr h)

theorem foldl_max_mem {β : Type} [LinearOrder β] :
    ∀ (t : List β) (a : β), t.foldl max a = a ∨ t.foldl max a ∈ t := by
  intro t
  induction t with
  | nil => intro a; exact Or.inl rfl
  | cons b t ih =>
    intro a
    simp only [List.foldl_cons]
    rcases ih (max a b) with h | h
    · rcases max_choice a b with hm | hm
      · left; rw [h, hm]
      · right; rw [h, hm]; exact List.mem_cons_self b t
    · exact Or.inr (List.mem_cons_of_mem b h)

theorem foldl_min_mem {β : Type} [LinearOrder β] :
    ∀ (t : List β) (a : β), t.foldl min a = a ∨ t.foldl min a ∈ t := by
  intro t
  induction t with
  | nil => intro a; exact Or.inl rfl
  | cons b t ih =>
    intro a
    simp only [List.foldl_cons]
    rcases ih (min a b) with h | h
    · rcases min_choice a b with hm | hm
      · left; rw [h, hm]
      · right; rw [h, hm]; exact List.mem_cons_self b t
    · exact Or.inr (List.mem_cons_of_mem b h)

theorem le_listMax {β : Type} [LinearOrder β] (d : β) {l : List β} {x : β}
    (h : x ∈ l) : x ≤ listMax d l := by
  cases l with
  | nil => cases h
  | cons a t =>
    rcases List.mem_cons.mp h with h | h
    · exact le_foldl_max t a x (Or.inl h)
    · exact le_foldl_max t a x (Or.inr h)

theorem listMin_le {β : Type} [LinearOrder β] (d : β) {l : List β} {x : β}
    (h : x ∈ l) : listMin d l ≤ x := by
  cases l with
  | nil => cases h
  | cons a t =>
    rcases List.mem_cons.mp h with h | h
    · exact foldl_min_le t a x (Or.inl h)
    · exact foldl_min_le t a x (Or.inr h)

theorem listMax_mem {β : Type} [LinearOrder β] (d : β) {l : List β}
    (h : l ≠ []) : listMax d l ∈ l := by
  cases l with
  | nil => exact absurd rfl h
  | cons a t =>
    show listMax d (a :: t) ∈ a :: t
    simp only [listMax]
    rcases foldl_max_mem t a with hm | hm
    · rw [hm]; exact List.mem_cons_self a t
    · exact List.mem_cons_of_mem a hm

theorem listMin_mem {β : Type} [LinearOrder β] (d : β) {l : List β}
    (h : l ≠ []) : listMin d l ∈ l := by
  cases l with
  | nil => exact absurd rfl h
  | cons a t =>
    show listMin d (a :: t) ∈ a :: t
    simp only [listMin]
    rcases foldl_min_mem t a with hm | hm
    · rw [hm]; exact List.mem_cons_self a t
    · exact List.mem_cons_of_mem a hm

theorem listMin_le_listMax {β : Type} [LinearOrder β] (d : β) {l : List β}
    (h : l ≠ []) : listMin d l ≤ listMax d l :=
  le_trans (listMin_le d (listMax_mem d h)) le_rfl

/-- Gregorian leap-year test. -/
def isLeap (y : Nat) : Bool := (y % 4 == 0 && y % 100 != 0) || y % 400 == 0

/-- Number of days in a month of the Gregorian calendar. -/
def daysInMonth (y m : Nat) : Nat :=
  if m = 2 then (if isLeap y then 29 else 28)
  else if m = 4 ∨ m = 6 ∨ m = 9 ∨ m = 11 then 30 else 31

/-- A parsed calendar date. -/
structure Date where
  year : Nat
  month : Nat
  day : Nat
deriving DecidableEq, Repr

/-- Split a character list at every dash, like `s.split('-')`. -/
def splitDashes : List Char → List (List Char)
  | [] => [[]]
  | c :: rest =>
    match splitDashes rest with
    | [] => [[c]]
    | g :: gs => if c = '-' then [] :: g :: gs else (c :: g) :: gs

/-- Read a non-empty all-digit character group as a number. -/
def digitsToNat? (cs : List Char) : Option Nat :=
  if cs.isEmpty then none
  else if cs.all (fun c => c.isDigit) then
    some (cs.foldl (fun acc c => acc * 10 + (c.toNat - 48)) 0)
  else none

/-- Parse an ISO `YYYY-MM-DD` string into a calendar-valid date; the
model of what `pd.to_datetime` accepts for the date strings the store
holds. -/
def parseDate (s : String) : Option Date :=
  match (splitDashes s.data).map digitsToNat? with
  | [some y, some m, some d] =>
    if 1 ≤ m ∧ m ≤ 12 ∧ 1 ≤ d ∧ d ≤ daysInMonth y m then some ⟨y, m, d⟩ else none
  | _ => none

theorem parseDate_month_valid {s : String} {dt : Date} (h : parseDate s = some dt) :
    1 ≤ dt.month ∧ dt.month ≤ 12 := by
  unfold parseDate at h
  split at h
  · split_ifs at h with hc
    · cases h
      exact ⟨hc.1, hc.2.1⟩
  · cases h

/-- Serial day number of a calendar date (the standard days-from-civil
computation); differences of serial numbers are differences in whole
days, as produced by subtracting two pandas timestamps. -/
def dayNumber (dt : Date) : ℤ :=
  let y : ℤ := if dt.month ≤ 2 then (dt.year : ℤ) - 1 else (dt.year : ℤ)
  let era : ℤ := (if 0 ≤ y then y else y - 399) / 400
  let yoe : ℤ := y - era * 400
  let mp : ℤ := ((dt.month : ℤ) + 9) % 12
  let doy : ℤ := (153 * mp + 2) / 5 + (dt.day : ℤ) - 1
  let doe : ℤ := yoe * 365 + yoe / 4 - yoe / 100 + doy
  era * 146097 + doe - 719468

/-- Parse the `date` field of every record of a snapshot, in snapshot
order, failing on the first record whose date does not parse; the
failure carries the offending date string, the way the exception
raised by `pd.to_datetime(df['date'])` names the unparseable value. -/
def parseAll : List Record → Except String (List (Record × Date))
  | [] => .ok []
  | r :: t =>
    match parseDate r.date with
    | none => .error r.date
    | some dt =>
      match parseAll t with
      | .error e => .error e
      | .ok prs => .ok ((r, dt) :: prs)

theorem parseAll_map_fst :
    ∀ {xs : List Record} {prs : List (Record × Date)},
      parseAll xs = .ok prs → prs.map Prod.fst = xs := by
  intro xs
  induction xs with
  | nil =>
    intro prs h
    cases h
    rfl
  | cons r t ih =>
    intro prs h
    unfold parseAll at h
    cases hp : parseDate r.date with
    | none => rw [hp] at h; cases h
    | some dt =>
      rw [hp] at h
      cases ht : parseAll t with
      | error e => rw [ht] at h; cases h
      | ok tl =>
        rw [ht] at h
        cases h
        simp [ih ht]

theorem parseAll_month_valid :
    ∀ {xs : List Record} {prs : List (Record × Date)},
      parseAll xs = .ok prs → ∀ p ∈ prs, 1 ≤ p.2.month ∧ p.2.month ≤ 12 := by
  intro xs
  induction xs with
  | nil =>
    intro prs h
    cases h
    intro p hp
    cases hp
  | cons r t ih =>
    intro prs h
    unfold parseAll at h
    cases hp : parseDate r.date with
    | none => rw [hp] at h; cases h
    | some dt =>
      rw [hp] at h
      cases ht : parseAll t with
      | error e => rw [ht] at h; cases h
      | ok tl =>
        rw [ht] at h
        cases h
        intro p hmem
        rcases List.mem_cons.mp hmem with hh | hh
        · exact hh ▸ parseDate_month_valid hp
        · exact ih ht p hh

theorem parseAll_error_of_find {xs : List Record} {r : Record}
    (h : xs.find? (fun r => (parseDate r.date).isNone) = some r) :
    parseAll xs = .error r.date := by
  induction xs with
  | nil => cases h
  | cons x t ih =>
    rw [List.find?_cons] at h
    cases hp : parseDate x.date with
    | none =>
      simp only [hp, Option.isNone_none] at h
      cases h
      unfold parseAll
      rw [hp]
    | some dt =>
      simp only [hp, Option.isNone_some] at h
      unfold parseAll
      rw [hp, ih h]

/-- Comparison by a key, largest first; the relation a descending
`sort_values` / `nlargest` call sorts by. -/
def descRel {α β : Type} [LinearOrder β] (K : α → β) : α → α → Prop :=
  fun a b => K b ≤ K a

/-- Comparison by a key, smallest first; the relation an ascending
sort (such as the implicit key sort of `groupby`) sorts by. -/
def ascRel {α β : Type} [LinearOrder β] (K : α → β) : α → α → Prop :=
  fun a b => K a ≤ K b

instance {α β : Type} [LinearOrder β] (K : α → β) : DecidableRel (descRel K) :=
  fun a b => inferInstanceAs (Decidable (K b ≤ K a))

instance {α β : Type} [LinearOrder β] (K : α → β) : DecidableRel (ascRel K) :=
  fun a b => inferInstanceAs (Decidable (K a ≤ K b))

/-- Stable sort by a key, descending: the model of pandas
`sort_values(ascending=False)` and of `nlargest`. -/
def sortDesc {α β : Type} [LinearOrder β] (K : α → β) (l : List α) : List α :=
  l.insertionSort (descRel K)

/-- Stable sort by a key, ascending: the model of the group-key sort
performed by pandas `groupby`. -/
def sortAsc {α β : Type} [LinearOrder β] (K : α → β) (l : List α) : List α :=
  l.insertionSort (ascRel K)

/-- Strictly larger key, or equal keys and the tie-break relation. -/
def lexDesc {α β : Type} [LinearOrder β] (K : α → β) (s : α → α → Prop) :
    α → α → Prop :=
  fun a b => K b < K a ∨ (K a = K b ∧ s a b)

/-- Strictly smaller key, or equal keys and the tie-break relation. -/
def lexAsc {α β : Type} [LinearOrder β] (K : α → β) (s : α → α → Prop) :
    α → α → Prop :=
  fun a b => K a < K b ∨ (K a = K b ∧ s a b)

theorem pairwise_orderedInsert_desc {α β : Type} [LinearOrder β] (K : α → β)
    (s : α → α → Prop) (a : α) :
    ∀ (L : List α), L.Pairwise (lexDesc K s) → (∀ x ∈ L, s a x) →
      (L.orderedInsert (descRel K) a).Pairwise (lexDesc K s) := by
  intro L
  induction L with
  | nil =>
    intro _ _
    simp [List.orderedInsert]
  | cons b L ih =>
    intro hL ha
    rw [List.orderedInsert]
    by_cases hab : descRel K a b
    · rw [if_pos hab]
      refine List.pairwise_cons.mpr ⟨?_, hL⟩
      intro y hy
      have hyKb : K y ≤ K b := by
        rcases List.mem_cons.mp hy with h | h
        · exact h ▸ le_rfl
        · rcases (List.pairwise_cons.mp hL).1 y h with h2 | h2
          · exact le_of_lt h2
          · exact le_of_eq h2.1.symm
      have hyKa : K y ≤ K a := le_trans hyKb hab
      rcases lt_or_eq_of_le hyKa with h2 | h2
      · exact Or.inl h2
      · exact Or.inr ⟨h2.symm, ha y hy⟩
    · rw [if_neg hab]
      refine List.pairwise_cons.mpr ⟨?_, ?_⟩
      · intro y hy
        rcases (List.mem_orderedInsert _).mp hy with h | h
        · subst h
          exact Or.inl (not_le.mp hab)
        · exact (List.pairwise_cons.mp hL).1 y h
      · exact ih (List.pairwise_cons.mp hL).2
          (fun x hx => ha x (List.mem_cons_of_mem b hx))

theorem pairwise_orderedInsert_asc {α β : Type} [LinearOrder β] (K : α → β)
    (s : α → α → Prop) (a : α) :
    ∀ (L : List α), L.Pairwise (lexAsc K s) → (∀ x ∈ L, s a x) →
      (L.orderedInsert (ascRel K) a).Pairwise (lexAsc K s) := by
  intro L
  induction L with
  | nil =>
    intro _ _
    simp [List.orderedInsert]
  | cons b L ih =>
    intro hL ha
    rw [List.orderedInsert]
    by_cases hab : ascRel K a b
    · rw [if_pos hab]
      refine List.pairwise_cons.mpr ⟨?_, hL⟩
      intro y hy
      have hbKy : K b ≤ K y := by
        rcases List.mem_cons.mp hy with h | h
        · exact h ▸ le_rfl
        · rcases (List.pairwise_cons.mp hL).1 y h with h2 | h2
          · exact le_of_lt h2
          · exact le_of_eq h2.1
      have haKy : K a ≤ K y := le_trans hab hbKy
      rcases lt_or_eq_of_le haKy with h2 | h2
      · exact Or.inl h2
      · exact Or.inr ⟨h2, ha y hy⟩
    · rw [if_neg hab]
      refine List.pairwise_cons.mpr ⟨?_, ?_⟩
      · intro y hy
        rcases (List.mem_orderedInsert _).mp hy with h | h
        · subst h
          exact Or.inl (not_le.mp hab)
        · exact (List.pairwise_cons.mp hL).1 y h
      · exact ih (List.pairwise_cons.mp hL).2
          (fun x hx => ha x (List.mem_cons_of_mem b hx))

/-- A stable descending sort of a list whose order satisfies a
tie-break relation is ordered by strictly-descending key with ties in
the original order. -/
theorem pairwise_sortDesc {α β : Type} [LinearOrder β] (K : α → β)
    (s : α → α → Prop) :
    ∀ (l : List α), l.Pairwise s → (sortDesc K l).Pairwise (lexDesc K s) := by
  intro l
  induction l with
  | nil =>
    intro _
    simp [sortDesc, List.insertionSort]
  | cons a t ih =>
    intro hl
    simp only [sortDesc, List.insertionSort]
    refine pairwise_orderedInsert_desc K s a _ (ih (List.pairwise_cons.mp hl).2) ?_
    intro x hx
    exact (List.pairwise_cons.mp hl).1 x ((List.mem_insertionSort _).mp hx)

/-- A stable ascending sort of a list whose order satisfies a
tie-break relation is ordered by strictly-ascending key with ties in
the original order. -/
theorem pairwise_sortAsc {α β : Type} [LinearOrder β] (K : α → β)
    (s : α → α → Prop) :
    ∀ (l : List α), l.Pairwise s → (sortAsc K l).Pairwise (lexAsc K s) := by
  intro l
  induction l with
  | nil =>
    intro _
    simp [sortAsc, List.insertionSort]
  | cons a t ih =>
    intro hl
    simp only [sortAsc, List.insertionSort]
    refine pairwise_orderedInsert_asc K s a _ (ih (List.pairwise_cons.mp hl).2) ?_
    intro x hx
    exact (List.pairwise_cons.mp hl).1 x ((List.mem_insertionSort _).mp hx)

theorem pairwise_true {α : Type} : ∀ (l : List α), l.Pairwise (fun _ _ => True) := by
  intro l
  induction l with
  | nil => exact List.Pairwise.nil
  | cons a t ih => exact List.Pairwise.cons (fun _ _ => trivial) ih

theorem perm_sortDesc {α β : Type} [LinearOrder β] (K : α → β) (l : List α) :
    List.Perm (sortDesc K l) l :=
  List.perm_insertionSort _ l

theorem perm_sortAsc {α β : Type} [LinearOrder β] (K : α → β) (l : List α) :
    List.Perm (sortAsc K l) l :=
  List.perm_insertionSort _ l

/-- Pandas `groupby` over a key: the distinct keys, sorted ascending
by an ordering key, each paired with the sublist of rows carrying that
key (in row order). -/
def sortedGroups {α κ β : Type} [DecidableEq κ] [LinearOrder β]
    (key : α → κ) (ordK : κ → β) (xs : List α) : List (κ × List α) :=
  (sortAsc ordK ((xs.map key).dedup)).map
    (fun k => (k, xs.filter (fun a => decide (key a = k))))

/-- Splitting a list by a key over a duplicate-free covering key list
is a partition: the concatenation of the groups is a permutation of
the list. -/
theorem flatten_filter_perm {α κ : Type} [DecidableEq κ] (key : α → κ) :
    ∀ (ks : List κ) (xs : List α), ks.Nodup → (∀ x ∈ xs, key x ∈ ks) →
      List.Perm (ks.map (fun k => xs.filter (fun a => decide (key a = k)))).flatten xs := by
  intro ks
  induction ks with
  | nil =>
    intro xs _ hcov
    have hxs : xs = [] :=
      List.eq_nil_iff_forall_not_mem.mpr (fun x hx => by simpa using hcov x hx)
    subst hxs
    simp
  | cons k ks ih =>
    intro xs hnd hcov
    simp only [List.map_cons, List.flatten_cons]
    have hk : k ∉ ks := (List.nodup_cons.mp hnd).1
    have hrw : ∀ k' ∈ ks, xs.filter (fun a => decide (key a = k')) =
        (xs.filter (fun a => !decide (key a = k))).filter (fun a => decide (key a = k')) := by
      intro k' hk'
      rw [List.filter_filter]
      refine List.filter_congr ?_
      intro a _
      by_cases h : key a = k'
      · have hkk : k' ≠ k := fun hh => hk (hh ▸ hk')
        simp [h, hkk]
      · simp [h]
    rw [List.map_congr_left hrw]
    have hcov2 : ∀ x ∈ xs.filter (fun a => !decide (key a = k)), key x ∈ ks := by
      intro x hx
      have hx2 := List.mem_filter.mp hx
      have := hcov x hx2.1
      rcases List.mem_cons.mp this with h | h
      · exfalso
        simp [h] at hx2
      · exact h
    have ihp := ih (xs.filter (fun a => !decide (key a = k))) (List.nodup_cons.mp hnd).2 hcov2
    exact List.Perm.trans (List.Perm.append_left _ ihp) (List.filter_append_perm _ xs)

theorem sortedGroups_flatten_perm {α κ β : Type} [DecidableEq κ] [LinearOrder β]
    (key : α → κ) (ordK : κ → β) (xs : List α) :
    List.Perm ((sortedGroups key ordK xs).map Prod.snd).flatten xs := by
  unfold sortedGroups
  rw [List.map_map]
  have hnd : (sortAsc ordK ((xs.map key).dedup)).Nodup :=
    (perm_sortAsc ordK _).nodup_iff.mpr (List.nodup_dedup _)
  have hcov : ∀ x ∈ xs, key x ∈ sortAsc ordK ((xs.map key).dedup) := by
    intro x hx
    exact (perm_sortAsc ordK _).mem_iff.mpr
      (List.mem_dedup.mpr (List.mem_map_of_mem key hx))
  exact flatten_filter_perm key _ xs hnd hcov

theorem sortedGroups_keys_perm {α κ β : Type} [DecidableEq κ] [LinearOrder β]
    (key : α → κ) (ordK : κ → β) (xs : List α) :
    List.Perm ((sortedGroups key ordK xs).map Prod.fst) ((xs.map key).dedup) := by
  unfold sortedGroups
  rw [List.map_map,
    show (Prod.fst ∘ fun k => (k, xs.filter (fun a => decide (key a = k)))) = id from rfl,
    List.map_id]
  exact perm_sortAsc ordK ((xs.map key).dedup)

theorem sortedGroups_keys_pairwise {α κ β : Type} [DecidableEq κ] [LinearOrder β]
    (key : α → κ) (ordK : κ → β) (xs : List α)
    (hinj : ∀ k1 k2, k1 ∈ (xs.map key).dedup → k2 ∈ (xs.map key).dedup →
      ordK k1 = ordK k2 → k1 = k2) :
    ((sortedGroups key ordK xs).map Prod.fst).Pairwise
      (fun a b => ordK a < ordK b) := by
  unfold sortedGroups
  rw [List.map_map]
  have h1 : (sortAsc ordK ((xs.map key).dedup)).Pairwise
      (lexAsc ordK (fun _ _ => True)) :=
    pairwise_sortAsc ordK _ _ (pairwise_true _)
  have h2 : (sortAsc ordK ((xs.map key).dedup)).Nodup :=
    (perm_sortAsc ordK _).nodup_iff.mpr (List.nodup_dedup _)
  have h3 := h1.and h2
  have h4 : (sortAsc ordK ((xs.map key).dedup)).Pairwise
      (fun a b => ordK a < ordK b) := by
    refine h3.imp_of_mem ?_
    intro a b ha hb hab
    rcases hab.1 with h | h
    · exact h
    · exfalso
      refine hab.2 ?_
      refine hinj a b ?_ ?_ h.1
      · exact (perm_sortAsc ordK _).mem_iff.mp ha
      · exact (perm_sortAsc ordK _).mem_iff.mp hb
  rw [show (Prod.fst ∘ fun k => (k, xs.filter (fun a => decide (key a = k)))) = id from rfl,
    List.map_id]
  exact h4

/-- A row of the `spending_by_category` result table: per category the
sum, count and mean of `amount`, the sum and mean rounded to two
decimals by the `.round(2)` call. -/
structure CatRow where
  category : String
  total : ℚ
  count : ℕ
  mean : ℚ
deriving DecidableEq, Repr

/-- A row of the `spending_by_payment_method` result table. -/
structure PayRow where
  method : String
  total : ℚ
  count : ℕ
deriving DecidableEq, Repr

/-- A row of the `monthly_spending_trend` result table, keyed by the
calendar year-month. -/
structure MonthRow where
  year : ℕ
  month : ℕ
  total : ℚ
  count : ℕ
  mean : ℚ
deriving DecidableEq, Repr

/-- A row of the `top_expenses` result projection: only `date`,
`amount`, `category` and `description` are exposed. -/
structure TopRow where
  date : String
  amount : ℚ
  category : String
  description : String
deriving DecidableEq, Repr

/-- The overall spending summary dictionary of `get_spending_summary`. -/
structure Summary where
  total_expenses : ℕ
  total_spent : ℚ
  average_expense : ℚ
  largest_expense : ℚ
  smallest_expense : ℚ
deriving DecidableEq, Repr

/-- A row of the `category_percentage` result table: the raw
(unrounded) category sum and the percentage rounded to two decimals. -/
structure PctRow where
  category : String
  amount : ℚ
  percentage : ℚ
deriving DecidableEq, Repr

/-- One finding of `find_patterns`, carrying the computed value; the
f-string formatting of the Python code is presentation only. -/
inductive Insight where
  | mostFrequentCategory (c : String)
  | highestSpendingCategory (c : String) (amt : ℚ)
  | mostUsedPayment (m : String)
  | averageDailySpending (v : ℚ)
  | largePurchases (n : ℕ)
deriving DecidableEq, Repr

/-- Grouping of a snapshot by the `category` column, group keys sorted
ascending as `groupby` does. -/
def categoryGroups (xs : List Record) : List (String × List Record) :=
  sortedGroups (fun r => r.category) (fun k => k) xs

/-- Grouping of a snapshot by the `payment_method` column. -/
def paymentGroups (xs : List Record) : List (String × List Record) :=
  sortedGroups (fun r => r.payment_method) (fun k => k) xs

/-- Ordering key of a year-month pair; chronological on calendar-valid
months (month between 1 and 12), mirroring the ordering of pandas
`Period` values. -/
def monthOrd (k : ℕ × ℕ) : ℕ := k.1 * 12 + k.2

/-- Grouping of the date-parsed snapshot by calendar year-month,
buckets in chronological order. -/
def monthGroups (prs : List (Record × Date)) : List ((ℕ × ℕ) × List (Record × Date)) :=
  sortedGroups (fun p => (p.2.year, p.2.month)) monthOrd prs

/-- `ExpenseAnalyzer.get_spending_summary`: count, total, mean, max
and min over `amount`; `None` on an empty snapshot. -/
def get_spending_summary (xs : List Record) : Option Summary :=
  if xs = [] then none
  else some
    { total_expenses := xs.length
      total_spent := totalAmount xs
      average_expense := meanAmount xs
      largest_expense := listMax 0 (amountsOf xs)
      smallest_expense := listMin 0 (amountsOf xs) }

/-- Sum of the amounts of one group of records. -/
def groupSum (g : List Record) : ℚ := (g.map (fun r => r.amount)).sum

/-- `ExpenseAnalyzer.spending_by_category`: group by `category`,
aggregate sum/count/mean of `amount`, round to two decimals, then sort
by the rounded `Total` descending; `None` on an empty snapshot. -/
def spending_by_category (xs : List Record) : Option (List CatRow) :=
  if xs = [] then none
  else some (sortDesc (fun row => row.total)
    ((categoryGroups xs).map (fun g =>
      { category := g.1
        total := round2 (groupSum g.2)
        count := g.2.length
        mean := round2 (groupSum g.2 / (g.2.length : ℚ)) })))

/-- `ExpenseAnalyzer.spending_by_payment_method`: group by
`payment_method`, aggregate sum/count, round, sort by rounded `Total`
descending; `None` on an empty snapshot. -/
def spending_by_payment_method (xs : List Record) : Option (List PayRow) :=
  if xs = [] then none
  else some (sortDesc (fun row => row.total)
    ((paymentGroups xs).map (fun g =>
      { method := g.1
        total := round2 (groupSum g.2)
        count := g.2.length })))

/-- Sum of the amounts of one group of date-parsed records. -/
def groupSumP (g : List (Record × Date)) : ℚ := (g.map (fun p => p.1.amount)).sum

/-- `ExpenseAnalyzer.monthly_spending_trend`: parse the `date` column
(a malformed date raises), bucket by year-month, aggregate
sum/count/mean rounded to two decimals, buckets in the ascending
group-key order `groupby` produces; `None` on an empty snapshot. -/
def monthly_spending_trend (xs : List Record) : Except String (Option (List MonthRow)) :=
  if xs = [] then .ok none
  else
    match parseAll xs with
    | .error e => .error e
    | .ok prs => .ok (some ((monthGroups prs).map (fun g =>
        { year := g.1.1
          month := g.1.2
          total := round2 (groupSumP g.2)
          count := g.2.length
          mean := round2 (groupSumP g.2 / (g.2.length : ℚ)) })))

/-- The records selected by `df.nlargest(n, 'amount')`: the first
`n` rows of the stable descending sort by `amount`; empty whenever
`n` is not positive, as `nlargest` returns an empty frame then. -/
def top_select (n : ℤ) (xs : List Record) : List Record :=
  (sortDesc (fun r => r.amount) xs).take n.toNat

/-- `ExpenseAnalyzer.top_expenses`: `None` on an empty snapshot, else
the `nlargest` selection projected to date/amount/category/description. -/
def top_expenses (n : ℤ) (xs : List Record) : Option (List TopRow) :=
  if xs = [] then none
  else some ((top_select n xs).map (fun r =>
    { date := r.date
      amount := r.amount
      category := r.category
      description := r.description }))

/-- `ExpenseAnalyzer.category_percentage`: per category the raw sum of
`amount` and its share of the overall total, the share rounded to two
decimals at the end; rows ordered by the raw category sum descending;
`None` on an empty snapshot. -/
def category_percentage (xs : List Record) : Option (List PctRow) :=
  if xs = [] then none
  else some (sortDesc (fun row => row.amount)
    ((categoryGroups xs).map (fun g =>
      { category := g.1
        amount := groupSum g.2
        percentage := round2 (groupSum g.2 / totalAmount xs * 100) })))

/-- The most frequent value of a column: `value_counts().index[0]`,
ties broken by first appearance. -/
def mostCommon (l : List String) : String :=
  match l.dedup with
  | [] => ""
  | c :: cs => cs.foldl (fun best x => if l.count best < l.count x then x else best) c

/-- The group key with the largest group sum together with that sum:
`groupby('category')['amount'].sum().idxmax()` and `.max()`; `idxmax`
returns the first maximising key in the sorted key order. -/
def argmaxGroupSum (gs : List (String × List Record)) : String × ℚ :=
  match gs.map (fun g => (g.1, groupSum g.2)) with
  | [] => ("", 0)
  | p :: ps => ps.foldl (fun best x => if best.2 < x.2 then x else best) p

/-- The day numbers of a date-parsed snapshot. -/
def dayNumbers (prs : List (Record × Date)) : List ℤ :=
  prs.map (fun p => dayNumber p.2)

/-- The inclusive day span of a date-parsed snapshot:
`(df['date'].max() - df['date'].min()).days + 1`. -/
def dateRangeDays (prs : List (Record × Date)) : ℤ :=
  listMax 0 (dayNumbers prs) - listMin 0 (dayNumbers prs) + 1

/-- `ExpenseAnalyzer.find_patterns`: the empty list on an empty
snapshot; otherwise the date column is parsed (a malformed date
raises) and the five insights are produced in order. -/
def find_patterns (xs : List Record) : Except String (List Insight) :=
  if xs = [] then .ok []
  else
    match parseAll xs with
    | .error e => .error e
    | .ok prs =>
      .ok [ .mostFrequentCategory (mostCommon (xs.map (fun r => r.category)))
          , .highestSpendingCategory (argmaxGroupSum (categoryGroups xs)).1
              (argmaxGroupSum (categoryGroups xs)).2
          , .mostUsedPayment (mostCommon (xs.map (fun r => r.payment_method)))
          , .averageDailySpending (totalAmount xs / (dateRangeDays prs : ℚ))
          , .largePurchases ((xs.filter (fun r => decide (meanAmount xs * 2 < r.amount))).length) ]

theorem sortedGroups_mem {α κ β : Type} [DecidableEq κ] [LinearOrder β]
    {key : α → κ} {ordK : κ → β} {xs : List α} {g : κ × List α}
    (hg : g ∈ sortedGroups key ordK xs) :
    g.2 = xs.filter (fun a => decide (key a = g.1)) := by
  unfold sortedGroups at hg
  rcases List.mem_map.mp hg with ⟨k, _, rfl⟩
  rfl

/-- Sample records used to instantiate the universally quantified
theorems at concrete inputs. -/
def sampleA : Record :=
  { id := 1, date := "2024-01-01", amount := 50, category := "Food & Dining",
    description := "", payment_method := "Cash" }

def sampleB : Record :=
  { id := 2, date := "2024-01-05", amount := 150, category := "Food & Dining",
    description := "groceries", payment_method := "Credit Card" }

def sampleC : Record :=
  { id := 3, date := "2024-02-01", amount := 20, category := "Transportation",
    description := "", payment_method := "Cash" }

/-- A record whose date is not a valid calendar date (February 30). -/
def badA : Record :=
  { id := 1, date := "2024-02-30", amount := 10, category := "Food & Dining",
    description := "", payment_method := "Cash" }

/-- Same malformed date as `badA` under a different record id. -/
def badB : Record :=
  { id := 2, date := "2024-02-30", amount := 25, category := "Shopping",
    description := "", payment_method := "Cash" }

/-- C4: on the empty snapshot every analysis operation returns its
defined no-data value and never raises: the summary, the category and
payment groupings, the monthly trend, Top-N for every N, and the
percentage breakdown return the distinguished no-result value, while
pattern insights return the empty list. -/
theorem claim_C4_empty_snapshot :
    get_spending_summary [] = none ∧
    spending_by_category [] = none ∧
    spending_by_payment_method [] = none ∧
    monthly_spending_trend [] = .ok none ∧
    (∀ n : ℤ, top_expenses n [] = none) ∧
    category_percentage [] = none ∧
    find_patterns [] = .ok [] :=
  ⟨rfl, rfl, rfl, rfl, fun _ => rfl, rfl, rfl⟩

/-- C10: on every non-empty snapshot the overall summary is internally
consistent: smallest ≤ mean ≤ largest, the count is the snapshot
length, and the total equals mean times count exactly over exact
arithmetic. -/
theorem claim_C10_summary_consistent (xs : List Record) (h : xs ≠ []) :
    ∃ s, get_spending_summary xs = some s ∧
      s.smallest_expense ≤ s.average_expense ∧
      s.average_expense ≤ s.largest_expense ∧
      s.total_expenses = xs.length ∧
      s.total_spent = s.average_expense * (s.total_expenses : ℚ) := by
  have hlen : 0 < xs.length := List.length_pos.mpr h
  have hlenq : (0 : ℚ) < (xs.length : ℚ) := by exact_mod_cast hlen
  have hlm : (amountsOf xs).length = xs.length := by simp [amountsOf]
  have hne : amountsOf xs ≠ [] := by
    simp only [amountsOf]
    exact fun h0 => h (List.map_eq_nil_iff.mp h0)
  refine ⟨_, by rw [get_spending_summary, if_neg h], ?_, ?_, rfl, ?_⟩
  · show listMin 0 (amountsOf xs) ≤ meanAmount xs
    unfold meanAmount totalAmount
    rw [le_div_iff₀ hlenq]
    have := List.card_nsmul_le_sum (amountsOf xs) (listMin 0 (amountsOf xs))
      (fun x hx => listMin_le 0 hx)
    rw [nsmul_eq_mul, hlm] at this
    calc listMin 0 (amountsOf xs) * (xs.length : ℚ)
        = (xs.length : ℚ) * listMin 0 (amountsOf xs) := by ring
      _ ≤ (amountsOf xs).sum := this
  · show meanAmount xs ≤ listMax 0 (amountsOf xs)
    unfold meanAmount totalAmount
    rw [div_le_iff₀ hlenq]
    have := List.sum_le_card_nsmul (amountsOf xs) (listMax 0 (amountsOf xs))
      (fun x hx => le_listMax 0 hx)
    rw [nsmul_eq_mul, hlm] at this
    calc (amountsOf xs).sum ≤ (xs.length : ℚ) * listMax 0 (amountsOf xs) := this
      _ = listMax 0 (amountsOf xs) * (xs.length : ℚ) := by ring
  · show totalAmount xs = meanAmount xs * (xs.length : ℚ)
    unfold meanAmount
    rw [div_mul_cancel₀ _ (ne_of_gt hlenq)]

theorem claim_C10_witness :
    [sampleA, sampleB, sampleC] ≠ ([] : List Record) ∧
    ∃ s, get_spending_summary [sampleA, sampleB, sampleC] = some s ∧
      s.smallest_expense ≤ s.average_expense ∧
      s.average_expense ≤ s.largest_expense ∧
      s.total_expenses = [sampleA, sampleB, sampleC].length ∧
      s.total_spent = s.average_expense * (s.total_expenses : ℚ) :=
  ⟨by decide, claim_C10_summary_consistent [sampleA, sampleB, sampleC] (by decide)⟩

/-- C2 counterexample: Top-N called with N = 0 on a non-empty
snapshot does not surface an error: it silently returns a defined
result, the empty row list. -/
theorem claim_C2_counterexample :
    top_expenses 0 [sampleA] = some [] := by
  rfl

/-- C2 as amended: for N < 1 the code never errors; on a non-empty
snapshot it silently returns the empty row list (and the usual
no-result value on the empty snapshot). For N ≥ 1 it never errors
either: the result is the no-result value exactly on the empty
snapshot and a row list otherwise. -/
theorem claim_C2_amended (n : ℤ) (xs : List Record) (hn : n < 1) (hxs : xs ≠ []) :
    top_expenses n xs = some [] := by
  have h0 : n.toNat = 0 := by omega
  simp [top_expenses, top_select, hxs, h0]

theorem claim_C2_witness :
    (0 : ℤ) < 1 ∧ [sampleB] ≠ ([] : List Record) ∧
    top_expenses 0 [sampleB] = some [] :=
  ⟨by decide, by decide, claim_C2_amended 0 [sampleB] (by decide) (by decide)⟩

theorem find_patterns_ok {xs : List Record} {prs : List (Record × Date)}
    (hp : parseAll xs = .ok prs) (hxs : xs ≠ []) :
    find_patterns xs =
      .ok [ .mostFrequentCategory (mostCommon (xs.map (fun r => r.category)))
          , .highestSpendingCategory (argmaxGroupSum (categoryGroups xs)).1
              (argmaxGroupSum (categoryGroups xs)).2
          , .mostUsedPayment (mostCommon (xs.map (fun r => r.payment_method)))
          , .averageDailySpending (totalAmount xs / (dateRangeDays prs : ℚ))
          , .largePurchases ((xs.filter
              (fun r => decide (meanAmount xs * 2 < r.amount))).length) ] := by
  rw [find_patterns, if_neg hxs, hp]

/-- C7: on every non-empty snapshot whose dates all parse, the fourth
pattern insight is the total amount divided by the inclusive day span
(max date minus min date in whole days, plus one); the span is at
least 1, and it is exactly 1 when all records carry one date, so the
division never divides by zero. -/
theorem claim_C7_average_daily (xs : List Record) (prs : List (Record × Date))
    (hp : parseAll xs = .ok prs) (hxs : xs ≠ []) :
    (∃ l, find_patterns xs = .ok l ∧
      l[3]? = some (.averageDailySpending (totalAmount xs / (dateRangeDays prs : ℚ)))) ∧
    1 ≤ dateRangeDays prs ∧
    (∀ d : Date, (∀ p ∈ prs, p.2 = d) → dateRangeDays prs = 1) := by
  have hprs : prs ≠ [] := by
    intro h0
    apply hxs
    have hfst := parseAll_map_fst hp
    rw [h0] at hfst
    exact hfst.symm
  have hdn : dayNumbers prs ≠ [] := by
    simp only [dayNumbers]
    exact fun h0 => hprs (List.map_eq_nil_iff.mp h0)
  refine ⟨⟨_, find_patterns_ok hp hxs, rfl⟩, ?_, ?_⟩
  · have := listMin_le_listMax (0 : ℤ) hdn
    unfold dateRangeDays
    omega
  · intro d hd
    have hall : ∀ x ∈ dayNumbers prs, x = dayNumber d := by
      intro x hx
      rcases List.mem_map.mp hx with ⟨p, hpmem, rfl⟩
      rw [hd p hpmem]
    have h1 : listMax 0 (dayNumbers prs) = dayNumber d :=
      hall _ (listMax_mem 0 hdn)
    have h2 : listMin 0 (dayNumbers prs) = dayNumber d :=
      hall _ (listMin_mem 0 hdn)
    unfold dateRangeDays
    rw [h1, h2]
    ring

theorem claim_C7_witness :
    parseAll [sampleA, sampleB] =
      .ok [(sampleA, ⟨2024, 1, 1⟩), (sampleB, ⟨2024, 1, 5⟩)] ∧
    [sampleA, sampleB] ≠ ([] : List Record) ∧
    ((∃ l, find_patterns [sampleA, sampleB] = .ok l ∧
      l[3]? = some (.averageDailySpending (totalAmount [sampleA, sampleB] /
        (dateRangeDays [(sampleA, ⟨2024, 1, 1⟩), (sampleB, ⟨2024, 1, 5⟩)] : ℚ)))) ∧
    1 ≤ dateRangeDays [(sampleA, ⟨2024, 1, 1⟩), (sampleB, ⟨2024, 1, 5⟩)] ∧
    (∀ d : Date, (∀ p ∈ [(sampleA, (⟨2024, 1, 1⟩ : Date)), (sampleB, ⟨2024, 1, 5⟩)], p.2 = d) →
      dateRangeDays [(sampleA, ⟨2024, 1, 1⟩), (sampleB, ⟨2024, 1, 5⟩)] = 1)) :=
  ⟨rfl, by decide,
    claim_C7_average_daily [sampleA, sampleB]
      [(sampleA, ⟨2024, 1, 1⟩), (sampleB, ⟨2024, 1, 5⟩)] rfl (by decide)⟩

/-- C8: on every non-empty snapshot with parseable dates, the fifth
pattern insight counts exactly the records whose amount strictly
exceeds twice the mean amount of the snapshot. -/
theorem claim_C8_large_purchases (xs : List Record) (prs : List (Record × Date))
    (hp : parseAll xs = .ok prs) (hxs : xs ≠ []) :
    ∃ l, find_patterns xs = .ok l ∧
      l[4]? = some (.largePurchases
        (xs.countP (fun r => decide (2 * meanAmount xs < r.amount)))) := by
  refine ⟨_, find_patterns_ok hp hxs, ?_⟩
  have hpred : (fun (r : Record) => decide (meanAmount xs * 2 < r.amount)) =
      (fun (r : Record) => decide (2 * meanAmount xs < r.amount)) := by
    funext r
    rw [mul_comm]
  rw [List.countP_eq_length_filter, hpred]
  rfl

/-- Snapshot from the spec's testable property for insight five:
amounts 10, 10, 10, 100 (mean 32.5, threshold 65). -/
def quadA : Record :=
  { id := 1, date := "2024-05-01", amount := 10, category := "Food & Dining",
    description := "", payment_method := "Cash" }

def quadB : Record :=
  { id := 2, date := "2024-05-01", amount := 10, category := "Food & Dining",
    description := "", payment_method := "Cash" }

def quadC : Record :=
  { id := 3, date := "2024-05-01", amount := 10, category := "Food & Dining",
    description := "", payment_method := "Cash" }

def quadD : Record :=
  { id := 4, date := "2024-05-01", amount := 100, category := "Shopping",
    description := "", payment_method := "Cash" }

theorem claim_C8_witness :
    parseAll [quadA, quadB, quadC, quadD] =
      .ok [(quadA, ⟨2024, 5, 1⟩), (quadB, ⟨2024, 5, 1⟩),
           (quadC, ⟨2024, 5, 1⟩), (quadD, ⟨2024, 5, 1⟩)] ∧
    [quadA, quadB, quadC, quadD] ≠ ([] : List Record) ∧
    [quadA, quadB, quadC, quadD].countP
      (fun r => decide (2 * meanAmount [quadA, quadB, quadC, quadD] < r.amount)) = 1 ∧
    (∃ l, find_patterns [quadA, quadB, quadC, quadD] = .ok l ∧
      l[4]? = some (.largePurchases
        ([quadA, quadB, quadC, quadD].countP
          (fun r => decide (2 * meanAmount [quadA, quadB, quadC, quadD] < r.amount))))) :=
  ⟨rfl,
    by decide,
    by norm_num [List.countP, List.countP.go, meanAmount, totalAmount, amountsOf,
      quadA, quadB, quadC, quadD],
    claim_C8_large_purchases [quadA, quadB, quadC, quadD]
      [(quadA, ⟨2024, 5, 1⟩), (quadB, ⟨2024, 5, 1⟩),
       (quadC, ⟨2024, 5, 1⟩), (quadD, ⟨2024, 5, 1⟩)] rfl (by decide)⟩

/-- C9 counterexample: two snapshots that differ only in the id of the
record carrying the malformed date produce the very same fault, so the
fault surfaced by month-bucketing and by pattern insights does not
identify the offending record id (it carries the offending date
string). -/
theorem claim_C9_counterexample :
    badA.id ≠ badB.id ∧
    monthly_spending_trend [badA] = .error "2024-02-30" ∧
    monthly_spending_trend [badB] = .error "2024-02-30" ∧
    find_patterns [badA] = .error "2024-02-30" ∧
    find_patterns [badB] = .error "2024-02-30" :=
  ⟨by decide, rfl, rfl, rfl, rfl⟩

/-- C9 as amended: a snapshot containing a record whose date fails to
parse makes Monthly Trend and Pattern Insights surface a fault,
distinct from every success result (in particular from the
empty-dataset results), carrying the date string of the first
offending record in snapshot order — not its record id. -/
theorem claim_C9_amended (xs : List Record) (r : Record)
    (h : xs.find? (fun r => (parseDate r.date).isNone) = some r) :
    monthly_spending_trend xs = .error r.date ∧
    find_patterns xs = .error r.date ∧
    (∀ rows, monthly_spending_trend xs ≠ .ok rows) ∧
    (∀ ins, find_patterns xs ≠ .ok ins) := by
  have hxs : xs ≠ [] := by
    intro h0
    rw [h0] at h
    cases h
  have he := parseAll_error_of_find h
  have h1 : monthly_spending_trend xs = .error r.date := by
    rw [monthly_spending_trend, if_neg hxs, he]
  have h2 : find_patterns xs = .error r.date := by
    rw [find_patterns, if_neg hxs, he]
  refine ⟨h1, h2, ?_, ?_⟩
  · intro rows hcon
    rw [h1] at hcon
    cases hcon
  · intro ins hcon
    rw [h2] at hcon
    cases hcon

theorem claim_C9_witness :
    [sampleA, badB].find? (fun r => (parseDate r.date).isNone) = some badB ∧
    (monthly_spending_trend [sampleA, badB] = .error badB.date ∧
     find_patterns [sampleA, badB] = .error badB.date ∧
     (∀ rows, monthly_spending_trend [sampleA, badB] ≠ .ok rows) ∧
     (∀ ins, find_patterns [sampleA, badB] ≠ .ok ins)) :=
  ⟨by decide, claim_C9_amended [sampleA, badB] badB (by decide)⟩

/-- C1: on every non-empty snapshot, `spending_by_category` groups the
records by exact category string (the result carries exactly the
distinct categories of the snapshot); each row holds the sum, count
and mean of `amount` over the records of exactly that category, sum
and mean rounded to two decimals; and the rows are ordered by the
(rounded, returned) sum descending with ties in the deterministic
grouping order, the ascending order of the category keys. -/
theorem claim_C1_spending_by_category (xs : List Record) (h : xs ≠ []) :
    ∃ rows, spending_by_category xs = some rows ∧
      List.Perm (rows.map (fun row => row.category))
        ((xs.map (fun r => r.category)).dedup) ∧
      (∀ row ∈ rows,
        row.total = round2 (groupSum (xs.filter (fun r => decide (r.category = row.category)))) ∧
        row.count = (xs.filter (fun r => decide (r.category = row.category))).length ∧
        row.mean = round2 (groupSum (xs.filter (fun r => decide (r.category = row.category))) /
          ((xs.filter (fun r => decide (r.category = row.category))).length : ℚ))) ∧
      rows.Pairwise (fun a b =>
        b.total < a.total ∨ (a.total = b.total ∧ a.category < b.category)) := by
  have heq : spending_by_category xs = some (sortDesc (fun row => row.total)
      ((categoryGroups xs).map (fun g =>
        { category := g.1
          total := round2 (groupSum g.2)
          count := g.2.length
          mean := round2 (groupSum g.2 / (g.2.length : ℚ)) }))) := by
    unfold spending_by_category
    rw [if_neg h]
  refine ⟨_, heq, ?_, ?_, ?_⟩
  · have hperm1 := (perm_sortDesc (fun row : CatRow => row.total)
      ((categoryGroups xs).map (fun g =>
        ({ category := g.1
           total := round2 (groupSum g.2)
           count := g.2.length
           mean := round2 (groupSum g.2 / (g.2.length : ℚ)) } : CatRow)))).map
      (fun row : CatRow => row.category)
    refine hperm1.trans ?_
    rw [List.map_map]
    exact sortedGroups_keys_perm (fun r => r.category) (fun k => k) xs
  · intro row hrow
    have hrow0 := (perm_sortDesc (fun row : CatRow => row.total) _).mem_iff.mp hrow
    rcases List.mem_map.mp hrow0 with ⟨g, hg, rfl⟩
    have hsnd := sortedGroups_mem hg
    refine ⟨?_, ?_, ?_⟩
    · rw [hsnd]
    · rw [hsnd]
    · rw [hsnd]
  · have hkeys := sortedGroups_keys_pairwise (fun r => r.category) (fun k => k) xs
      (fun _ _ _ _ hh => hh)
    have hgroups : (categoryGroups xs).Pairwise (fun g1 g2 => g1.1 < g2.1) :=
      List.pairwise_map.mp hkeys
    have hrows0 : ((categoryGroups xs).map (fun g =>
        ({ category := g.1
           total := round2 (groupSum g.2)
           count := g.2.length
           mean := round2 (groupSum g.2 / (g.2.length : ℚ)) } : CatRow))).Pairwise
        (fun a b => a.category < b.category) :=
      List.pairwise_map.mpr hgroups
    exact pairwise_sortDesc (fun row : CatRow => row.total)
      (fun a b => a.category < b.category) _ hrows0

theorem claim_C1_witness :
    [sampleC, sampleB, sampleA] ≠ ([] : List Record) ∧
    (∃ rows, spending_by_category [sampleC, sampleB, sampleA] = some rows ∧
      List.Perm (rows.map (fun row => row.category))
        (([sampleC, sampleB, sampleA].map (fun r => r.category)).dedup) ∧
      (∀ row ∈ rows,
        row.total = round2 (groupSum ([sampleC, sampleB, sampleA].filter
          (fun r => decide (r.category = row.category)))) ∧
        row.count = ([sampleC, sampleB, sampleA].filter
          (fun r => decide (r.category = row.category))).length ∧
        row.mean = round2 (groupSum ([sampleC, sampleB, sampleA].filter
            (fun r => decide (r.category = row.category))) /
          (([sampleC, sampleB, sampleA].filter
            (fun r => decide (r.category = row.category))).length : ℚ))) ∧
      rows.Pairwise (fun a b =>
        b.total < a.total ∨ (a.total = b.total ∧ a.category < b.category))) :=
  ⟨by decide, claim_C1_spending_by_category [sampleC, sampleB, sampleA] (by decide)⟩

/-- C3: on every non-empty snapshot, `category_percentage` carries per
category the raw (unrounded) sum of its records' amounts, computes the
percentage as 100 times that unrounded sum divided by the unrounded
overall total with rounding applied only to the final percentage, and
orders the rows by the raw category sum descending (ties in the
deterministic grouping order). -/
theorem claim_C3_category_percentage (xs : List Record) (h : xs ≠ []) :
    ∃ rows, category_percentage xs = some rows ∧
      List.Perm (rows.map (fun row => row.category))
        ((xs.map (fun r => r.category)).dedup) ∧
      (∀ row ∈ rows,
        row.amount = groupSum (xs.filter (fun r => decide (r.category = row.category))) ∧
        row.percentage = round2 (100 * row.amount / totalAmount xs)) ∧
      rows.Pairwise (fun a b =>
        b.amount < a.amount ∨ (a.amount = b.amount ∧ a.category < b.category)) := by
  have heq : category_percentage xs = some (sortDesc (fun row => row.amount)
      ((categoryGroups xs).map (fun g =>
        { category := g.1
          amount := groupSum g.2
          percentage := round2 (groupSum g.2 / totalAmount xs * 100) }))) := by
    unfold category_percentage
    rw [if_neg h]
  refine ⟨_, heq, ?_, ?_, ?_⟩
  · have hperm1 := (perm_sortDesc (fun row : PctRow => row.amount)
      ((categoryGroups xs).map (fun g =>
        ({ category := g.1
           amount := groupSum g.2
           percentage := round2 (groupSum g.2 / totalAmount xs * 100) } : PctRow)))).map
      (fun row : PctRow => row.category)
    refine hperm1.trans ?_
    rw [List.map_map]
    exact sortedGroups_keys_perm (fun r => r.category) (fun k => k) xs
  · intro row hrow
    have hrow0 := (perm_sortDesc (fun row : PctRow => row.amount) _).mem_iff.mp hrow
    rcases List.mem_map.mp hrow0 with ⟨g, hg, rfl⟩
    have hsnd := sortedGroups_mem hg
    refine ⟨by rw [hsnd], ?_⟩
    show round2 (groupSum g.2 / totalAmount xs * 100) =
      round2 (100 * groupSum g.2 / totalAmount xs)
    exact congrArg round2 (by ring)
  · have hkeys := sortedGroups_keys_pairwise (fun r => r.category) (fun k => k) xs
      (fun _ _ _ _ hh => hh)
    have hgroups : (categoryGroups xs).Pairwise (fun g1 g2 => g1.1 < g2.1) :=
      List.pairwise_map.mp hkeys
    have hrows0 : ((categoryGroups xs).map (fun g =>
        ({ category := g.1
           amount := groupSum g.2
           percentage := round2 (groupSum g.2 / totalAmount xs * 100) } : PctRow))).Pairwise
        (fun a b => a.category < b.category) :=
      List.pairwise_map.mpr hgroups
    exact pairwise_sortDesc (fun row : PctRow => row.amount)
      (fun a b => a.category < b.category) _ hrows0

theorem claim_C3_witness :
    [sampleC, sampleB, sampleA] ≠ ([] : List Record) ∧
    (∃ rows, category_percentage [sampleC, sampleB, sampleA] = some rows ∧
      List.Perm (rows.map (fun row => row.category))
        (([sampleC, sampleB, sampleA].map (fun r => r.category)).dedup) ∧
      (∀ row ∈ rows,
        row.amount = groupSum ([sampleC, sampleB, sampleA].filter
          (fun r => decide (r.category = row.category))) ∧
        row.percentage = round2 (100 * row.amount / totalAmount [sampleC, sampleB, sampleA])) ∧
      rows.Pairwise (fun a b =>
        b.amount < a.amount ∨ (a.amount = b.amount ∧ a.category < b.category))) :=
  ⟨by decide, claim_C3_category_percentage [sampleC, sampleB, sampleA] (by decide)⟩

/-- C5: on every non-empty snapshot whose dates all parse, the monthly
trend buckets the records by calendar year-month: the concatenation of
the buckets is a permutation of the snapshot (every record in exactly
one bucket), the raw (pre-rounding) bucket sums add up to the
snapshot's total, and the returned rows are in chronologically
ascending year-month order. -/
theorem claim_C5_monthly_trend (xs : List Record) (prs : List (Record × Date))
    (hp : parseAll xs = .ok prs) (hxs : xs ≠ []) :
    ∃ rows, monthly_spending_trend xs = .ok (some rows) ∧
      rows = (monthGroups prs).map (fun g =>
        { year := g.1.1
          month := g.1.2
          total := round2 (groupSumP g.2)
          count := g.2.length
          mean := round2 (groupSumP g.2 / (g.2.length : ℚ)) }) ∧
      List.Perm (((monthGroups prs).map Prod.snd).flatten.map Prod.fst) xs ∧
      ((monthGroups prs).map (fun g => groupSumP g.2)).sum = totalAmount xs ∧
      rows.Pairwise (fun a b =>
        a.year < b.year ∨ (a.year = b.year ∧ a.month < b.month)) := by
  have heq : monthly_spending_trend xs = .ok (some ((monthGroups prs).map (fun g =>
      { year := g.1.1
        month := g.1.2
        total := round2 (groupSumP g.2)
        count := g.2.length
        mean := round2 (groupSumP g.2 / (g.2.length : ℚ)) }))) := by
    unfold monthly_spending_trend
    rw [if_neg hxs, hp]
  have h1 := sortedGroups_flatten_perm (fun p : Record × Date => (p.2.year, p.2.month))
    monthOrd prs
  refine ⟨_, heq, rfl, ?_, ?_, ?_⟩
  · have h2 := h1.map Prod.fst
    rw [parseAll_map_fst hp] at h2
    exact h2
  · have h2 := (h1.map (fun p : Record × Date => p.1.amount)).sum_eq
    calc ((monthGroups prs).map (fun g => groupSumP g.2)).sum
        = ((((monthGroups prs).map Prod.snd).map
            (List.map (fun p : Record × Date => p.1.amount))).map List.sum).sum := by
          rw [List.map_map, List.map_map]
          rfl
      _ = (((monthGroups prs).map Prod.snd).map
            (List.map (fun p : Record × Date => p.1.amount))).flatten.sum := by
          rw [List.sum_flatten]
      _ = (((monthGroups prs).map Prod.snd).flatten.map
            (fun p : Record × Date => p.1.amount)).sum := by
          rw [List.map_flatten]
      _ = (prs.map (fun p : Record × Date => p.1.amount)).sum := h2
      _ = totalAmount xs := by
          rw [show (fun p : Record × Date => p.1.amount) =
              ((fun r : Record => r.amount) ∘ Prod.fst) from rfl,
            ← List.map_map, parseAll_map_fst hp]
          rfl
  · have hbound : ∀ k ∈ (prs.map (fun p : Record × Date => (p.2.year, p.2.month))).dedup,
        1 ≤ k.2 ∧ k.2 ≤ 12 := by
      intro k hk
      rcases List.mem_map.mp (List.mem_dedup.mp hk) with ⟨p, hpm, rfl⟩
      exact parseAll_month_valid hp p hpm
    have hinj : ∀ k1 k2,
        k1 ∈ (prs.map (fun p : Record × Date => (p.2.year, p.2.month))).dedup →
        k2 ∈ (prs.map (fun p : Record × Date => (p.2.year, p.2.month))).dedup →
        monthOrd k1 = monthOrd k2 → k1 = k2 := by
      intro k1 k2 hk1 hk2 he
      have b1 := hbound k1 hk1
      have b2 := hbound k2 hk2
      rcases k1 with ⟨y1, m1⟩
      rcases k2 with ⟨y2, m2⟩
      simp only [monthOrd] at he b1 b2
      have hy : y1 = y2 := by omega
      have hm : m1 = m2 := by omega
      rw [hy, hm]
    have hkeys := sortedGroups_keys_pairwise
      (fun p : Record × Date => (p.2.year, p.2.month)) monthOrd prs hinj
    have hmem : ∀ k ∈ (monthGroups prs).map Prod.fst, 1 ≤ k.2 ∧ k.2 ≤ 12 := by
      intro k hk
      exact hbound k ((sortedGroups_keys_perm
        (fun p : Record × Date => (p.2.year, p.2.month)) monthOrd prs).mem_iff.mp hk)
    have hlex : ((monthGroups prs).map Prod.fst).Pairwise
        (fun a b => a.1 < b.1 ∨ (a.1 = b.1 ∧ a.2 < b.2)) := by
      refine hkeys.imp_of_mem ?_
      intro a b ha hb hab
      have b1 := hmem a ha
      have b2 := hmem b hb
      simp only [monthOrd] at hab
      omega
    have hgroups : (monthGroups prs).Pairwise
        (fun g1 g2 => g1.1.1 < g2.1.1 ∨ (g1.1.1 = g2.1.1 ∧ g1.1.2 < g2.1.2)) :=
      List.pairwise_map.mp hlex
    exact List.pairwise_map.mpr hgroups

theorem claim_C5_witness :
    parseAll [sampleC, sampleB, sampleA] =
      .ok [(sampleC, ⟨2024, 2, 1⟩), (sampleB, ⟨2024, 1, 5⟩), (sampleA, ⟨2024, 1, 1⟩)] ∧
    [sampleC, sampleB, sampleA] ≠ ([] : List Record) ∧
    (∃ rows, monthly_spending_trend [sampleC, sampleB, sampleA] = .ok (some rows) ∧
      rows = (monthGroups [(sampleC, ⟨2024, 2, 1⟩), (sampleB, ⟨2024, 1, 5⟩),
          (sampleA, ⟨2024, 1, 1⟩)]).map (fun g =>
        { year := g.1.1
          month := g.1.2
          total := round2 (groupSumP g.2)
          count := g.2.length
          mean := round2 (groupSumP g.2 / (g.2.length : ℚ)) }) ∧
      List.Perm (((monthGroups [(sampleC, ⟨2024, 2, 1⟩), (sampleB, ⟨2024, 1, 5⟩),
          (sampleA, ⟨2024, 1, 1⟩)]).map Prod.snd).flatten.map Prod.fst)
        [sampleC, sampleB, sampleA] ∧
      ((monthGroups [(sampleC, ⟨2024, 2, 1⟩), (sampleB, ⟨2024, 1, 5⟩),
          (sampleA, ⟨2024, 1, 1⟩)]).map (fun g => groupSumP g.2)).sum =
        totalAmount [sampleC, sampleB, sampleA] ∧
      rows.Pairwise (fun a b =>
        a.year < b.year ∨ (a.year = b.year ∧ a.month < b.month))) :=
  ⟨rfl, by decide,
    claim_C5_monthly_trend [sampleC, sampleB, sampleA]
      [(sampleC, ⟨2024, 2, 1⟩), (sampleB, ⟨2024, 1, 5⟩), (sampleA, ⟨2024, 1, 1⟩)]
      rfl (by decide)⟩

theorem le_fst_of_mem_enumFrom {α : Type} :
    ∀ (l : List α) (n : ℕ) (p : ℕ × α), p ∈ l.enumFrom n → n ≤ p.1 := by
  intro l
  induction l with
  | nil =>
    intro n p hp
    cases hp
  | cons a t ih =>
    intro n p hp
    rw [List.enumFrom_cons] at hp
    rcases List.mem_cons.mp hp with h | h
    · rw [h]
    · exact le_trans (Nat.le_succ n) (ih (n + 1) p h)

theorem pairwise_fst_enumFrom {α : Type} :
    ∀ (l : List α) (n : ℕ), (l.enumFrom n).Pairwise (fun a b => a.1 < b.1) := by
  intro l
  induction l with
  | nil =>
    intro n
    simp
  | cons a t ih =>
    intro n
    rw [List.enumFrom_cons]
    refine List.pairwise_cons.mpr ⟨?_, ih (n + 1)⟩
    intro p hp
    have := le_fst_of_mem_enumFrom t (n + 1) p hp
    simp only []
    omega

/-- The snapshot tagged with its original positions and stably sorted
by amount descending; its second components are exactly the
`nlargest` order of the snapshot. -/
def taggedSortAmount (xs : List Record) : List (ℕ × Record) :=
  sortDesc (fun p => p.2.amount) xs.enum

/-- C6: for every snapshot and every N ≥ 1, the ids selected by Top-N
are among those selected by Top-(N+1); the Top-N selection is the
prefix of length N of the stable descending sort by amount, which is a
permutation of the snapshot ordered by strictly-descending amount with
ties in original snapshot position; consequently the selection is in
descending amount order. -/
theorem claim_C6_topn_monotone (xs : List Record) (n : ℤ) (hn : 1 ≤ n) :
    (∀ i ∈ (top_select n xs).map (fun r => r.id),
       i ∈ (top_select (n + 1) xs).map (fun r => r.id)) ∧
    (taggedSortAmount xs).map Prod.snd = sortDesc (fun r => r.amount) xs ∧
    (taggedSortAmount xs).Pairwise (fun a b =>
      b.2.amount < a.2.amount ∨ (a.2.amount = b.2.amount ∧ a.1 < b.1)) ∧
    top_select n xs = ((taggedSortAmount xs).map Prod.snd).take n.toNat ∧
    (top_select n xs).Pairwise (fun a b => b.amount ≤ a.amount) ∧
    List.Perm (sortDesc (fun r => r.amount) xs) xs := by
  have hmap : (taggedSortAmount xs).map Prod.snd = sortDesc (fun r => r.amount) xs := by
    unfold taggedSortAmount sortDesc
    rw [List.map_insertionSort (descRel (fun p : ℕ × Record => p.2.amount))
      (descRel (fun r : Record => r.amount)) Prod.snd xs.enum
      (fun a _ b _ => Iff.rfl)]
    rw [show xs.enum.map Prod.snd = xs from List.enumFrom_map_snd 0 xs]
  refine ⟨?_, hmap, ?_, ?_, ?_, perm_sortDesc _ _⟩
  · intro i hi
    rcases List.mem_map.mp hi with ⟨r, hr, rfl⟩
    refine List.mem_map.mpr ⟨r, ?_, rfl⟩
    unfold top_select at hr ⊢
    have hmn : n.toNat ≤ (n + 1).toNat := by omega
    have heq : (sortDesc (fun r => r.amount) xs).take n.toNat =
        ((sortDesc (fun r => r.amount) xs).take ((n + 1).toNat)).take n.toNat := by
      rw [List.take_take, min_eq_left hmn]
    rw [heq] at hr
    exact List.take_subset _ _ hr
  · exact pairwise_sortDesc (fun p : ℕ × Record => p.2.amount)
      (fun a b => a.1 < b.1) xs.enum (pairwise_fst_enumFrom xs 0)
  · rw [hmap]
    rfl
  · have hfull := pairwise_sortDesc (fun r : Record => r.amount)
      (fun _ _ => True) xs (pairwise_true xs)
    have hw : (sortDesc (fun r : Record => r.amount) xs).Pairwise
        (fun a b => b.amount ≤ a.amount) := by
      refine hfull.imp ?_
      intro a b h
      rcases h with h | h
      · exact le_of_lt h
      · exact le_of_eq h.1.symm
    exact List.Pairwise.sublist (List.take_sublist _ _) hw

theorem claim_C6_witness :
    (1 : ℤ) ≤ 1 ∧
    ((∀ i ∈ (top_select 1 [sampleA, sampleB, sampleC]).map (fun r => r.id),
       i ∈ (top_select (1 + 1) [sampleA, sampleB, sampleC]).map (fun r => r.id)) ∧
    (taggedSortAmount [sampleA, sampleB, sampleC]).map Prod.snd =
      sortDesc (fun r => r.amount) [sampleA, sampleB, sampleC] ∧
    (taggedSortAmount [sampleA, sampleB, sampleC]).Pairwise (fun a b =>
      b.2.amount < a.2.amount ∨ (a.2.amount = b.2.amount ∧ a.1 < b.1)) ∧
    top_select 1 [sampleA, sampleB, sampleC] =
      ((taggedSortAmount [sampleA, sampleB, sampleC]).map Prod.snd).take (1 : ℤ).toNat ∧
    (top_select 1 [sampleA, sampleB, sampleC]).Pairwise (fun a b => b.amount ≤ a.amount) ∧
    List.Perm (sortDesc (fun r => r.amount) [sampleA, sampleB, sampleC])
      [sampleA, sampleB, sampleC]) :=
  ⟨by decide, claim_C6_topn_monotone [sampleA, sampleB, sampleC] 1 (by decide)⟩

end ExpenseTracker
